import Mathlib

/-!
Shallow embedding of the Zabbix network-discovery engine
(src/zabbix_server/discoverer/discoverer.c) and proofs about its result
aggregation, scheduling and drain logic.

Machine integers (`zbx_uint64_t`) are modelled as `Nat` with explicit
reduction modulo 2^64 where overflow matters.  The intrusive hashsets
keyed by `(druleid, ip)` are modelled as association lists with
first-match lookup (the C hashsets hold at most one entry per key).
-/

namespace Discoverer

/-- Service/host status (`DOBJECT_STATUS_UP` / `DOBJECT_STATUS_DOWN`). -/
inductive DStatus where
  | up
  | down
deriving Repr, DecidableEq

/-- A discovered service (`zbx_discoverer_dservice_t`). -/
structure DService where
  dcheckid : Nat
  port : Nat
  status : DStatus
  value : String
deriving Repr, DecidableEq

/-- A result-cache entry (`zbx_discoverer_results_t`), keyed by `(druleid, ip)`.
`dnsname = none` models a `NULL` pointer. -/
structure DResult where
  druleid : Nat
  ip : String
  dnsname : Option String
  unique_dcheckid : Nat
  now : Nat
  processed_checks_per_ip : Nat
  services : List DService
deriving Repr, DecidableEq

/-- An outstanding-check counter (`zbx_discoverer_check_count_t`),
keyed by `(druleid, ip)`; `count` is a `zbx_uint64_t`. -/
structure CheckCount where
  druleid : Nat
  ip : String
  count : Nat
deriving Repr, DecidableEq

/-- Key comparison of the check-count hashset (`discoverer_check_count_compare`). -/
def ccKey (e : CheckCount) (druleid : Nat) (ip : String) : Bool :=
  e.druleid == druleid && e.ip == ip

/-- Lookup in the `incomplete_checks_count` hashset (`zbx_hashset_search`). -/
def ccFind (cc : List CheckCount) (druleid : Nat) (ip : String) : Option Nat :=
  (cc.find? (fun e => ccKey e druleid ip)).map (fun e => e.count)

/-- Overwrite the count of the (unique) entry with the given key. -/
def ccSetFirst : List CheckCount → Nat → String → Nat → List CheckCount
  | [], _, _, _ => []
  | e :: rest, druleid, ip, c =>
      if ccKey e druleid ip then { e with count := c } :: rest
      else e :: ccSetFirst rest druleid ip c

/-- Remove the (unique) entry with the given key (`zbx_hashset_remove_direct`). -/
def ccRemoveFirst : List CheckCount → Nat → String → List CheckCount
  | [], _, _ => []
  | e :: rest, druleid, ip =>
      if ccKey e druleid ip then rest
      else e :: ccRemoveFirst rest druleid ip

/-- Two's-complement subtraction on `zbx_uint64_t`:
`a - b` reduced modulo 2^64 (18446744073709551616 = 2^64). -/
def sub64 (a b : Nat) : Nat :=
  (a + (18446744073709551616 - b % 18446744073709551616)) % 18446744073709551616

/-- `discoverer_check_count_decrease` (discoverer.c:124).  Returns `none`
(`FAIL`) when no entry exists for the key or its count is already zero;
otherwise decreases the stored count by `n` (unchecked `uint64` subtraction)
and returns the updated map together with the remaining count. -/
def discoverer_check_count_decrease (cc : List CheckCount) (druleid : Nat) (ip : String)
    (n : Nat) : Option (List CheckCount × Nat) :=
  match ccFind cc druleid ip with
  | none => none
  | some c =>
      if c = 0 then none
      else
        let c' := sub64 c n
        some (ccSetFirst cc druleid ip c', c')

/-- One step of the `host_status` accumulation in `process_services`
(discoverer.c:282): `(-1 == host_status || UP == status) && host_status != status`.
`none` models the initial `-1`. -/
def host_status_step (hs : Option DStatus) (s : DStatus) : Option DStatus :=
  match hs with
  | none => some s
  | some h => if s = DStatus.up ∧ h ≠ s then some s else some h

/-- Host status computed by `process_services` (discoverer.c:268):
fold over the service list, then a result with zero services is forced
to `DOBJECT_STATUS_DOWN`. -/
def process_services (services : List DService) : Option DStatus :=
  let hs := services.foldl (fun hs sv => host_status_step hs sv.status) none
  if services.length = 0 then some DStatus.down else hs

/-- Key comparison of the results hashset (`discoverer_result_compare`). -/
def resKey (r : DResult) (druleid : Nat) (ip : String) : Bool :=
  r.druleid == druleid && r.ip == ip

/-- Lookup in the `results` hashset by key `(druleid, ip)` (`zbx_hashset_search`
with `discoverer_result_compare`). -/
def resFind (rs : List DResult) (druleid : Nat) (ip : String) : Option DResult :=
  rs.find? (fun r => resKey r druleid ip)

/-- Apply `f` to the (unique) entry with the given key, mirroring in-place
mutation of the record returned by a hashset search. -/
def resUpdateFirst : List DResult → Nat → String → (DResult → DResult) → List DResult
  | [], _, _, _ => []
  | r :: rest, druleid, ip, f =>
      if resKey r druleid ip then f r :: rest
      else r :: resUpdateFirst rest druleid ip f

/-- Remove the (unique) entry with the given key
(`zbx_vector_discoverer_results_ptr_remove` after a successful `bsearch`). -/
def resRemoveFirst : List DResult → Nat → String → List DResult
  | [], _, _ => []
  | r :: rest, druleid, ip =>
      if resKey r druleid ip then rest
      else r :: resRemoveFirst rest druleid ip

/-- The empty result record inserted by `discover_results_host_reg`
(services empty, dnsname `""`; `now` is modelled as 0). -/
def emptyResult (druleid uniq : Nat) (ip : String) : DResult :=
  { druleid := druleid, ip := ip, dnsname := some "", unique_dcheckid := uniq,
    now := 0, processed_checks_per_ip := 0, services := [] }

/-- `discover_results_host_reg` (discoverer.c:990): upsert of an empty entry
for `(druleid, ip)`; returns the new map and the found/created entry. -/
def discover_results_host_reg (rs : List DResult) (druleid uniq : Nat) (ip : String) :
    List DResult × DResult :=
  match resFind rs druleid ip with
  | some d => (rs, d)
  | none => (emptyResult druleid uniq ip :: rs, emptyResult druleid uniq ip)

/-- The `NULL`-dnsname fixup at the top of `discover_results_move_value`
(discoverer.c:1013): a missing dnsname becomes the empty string. -/
def fix_dnsname (r : DResult) : DResult :=
  if r.dnsname = none then { r with dnsname := some "" } else r

/-- `discover_results_move_value` (discoverer.c:1009): move one source record
into the destination hashset, merging services and preferring a non-empty
dnsname. -/
def discover_results_move_value (src : DResult) (dst : List DResult) : List DResult :=
  match resFind dst src.druleid src.ip with
  | none => fix_dnsname src :: dst
  | some _ =>
      resUpdateFirst dst src.druleid src.ip (fun d =>
        let d1 := if d.dnsname = some "" ∧ (fix_dnsname src).dnsname ≠ some "" then
            { d with dnsname := (fix_dnsname src).dnsname } else d
        { d1 with services := d1.services ++ src.services })

/-- The commit path of `discoverer_net_check_common` (discoverer.c:1156):
after the sync probe reported the service `Up`, under `results_lock` the
outstanding-check count is decremented by 1; on success the host is
registered and the service appended, on failure (`FAIL`) the service is
freed and both maps are left untouched. -/
def discoverer_net_check_common_commit (cc : List CheckCount) (rs : List DResult)
    (druleid uniq : Nat) (ip dns : String) (service : DService) :
    List CheckCount × List DResult :=
  match discoverer_check_count_decrease cc druleid ip 1 with
  | some (cc', _) =>
      let rs1 := (discover_results_host_reg rs druleid uniq ip).1
      let rs2 := resUpdateFirst rs1 druleid ip (fun r =>
        let r := if r.dnsname = none ∨ (r.dnsname = some "" ∧ dns ≠ "") then
            { r with dnsname := some dns } else r
        { r with services := r.services ++ [service] })
      (cc', rs2)
  | none => (cc, rs)

/-- Job status (`DISCOVERER_JOB_STATUS_*`). -/
inductive JobStatus where
  | queued
  | waiting
  | removing
deriving Repr, DecidableEq

/-- The per-job worker bookkeeping fields (`zbx_discoverer_job_t`). -/
structure JobState where
  workers_used : Nat
  workers_max : Nat
  status : JobStatus
deriving Repr, DecidableEq

/-- The requeue decision of the worker loop after popping a task
(discoverer.c:1268-1276): increment `workers_used`, then push the job back
(and notify; `true`) iff `workers_max` is 0 or the incremented
`workers_used` differs from `workers_max`, else mark the job `Waiting`. -/
def worker_after_task_pop (job : JobState) : JobState × Bool :=
  if job.workers_max = 0 ∨ job.workers_used + 1 ≠ job.workers_max then
    ({ job with workers_used := job.workers_used + 1 }, true)
  else ({ job with workers_used := job.workers_used + 1, status := JobStatus.waiting }, false)

/-- `ZBX_DEFAULT_INTERVAL` (`SEC_PER_HOUR` upstream; the exact value is
immaterial to the claims, only that the invalid-delay path uses it). -/
def ZBX_DEFAULT_INTERVAL : Nat := 3600

/-- The error text built for an invalid update interval
(discoverer.c:663): `discovery rule "<delay_str>": invalid update
interval "<substituted delay>"`. -/
def invalid_interval_error (orig subst : String) : String :=
  "discovery rule \"" ++ orig ++ "\": invalid update interval \"" ++ subst ++ "\""

/-- The per-rule inputs of one `process_discovery` iteration
(discoverer.c:631-785) whose producers live outside this file:
`parsed_delay` is the outcome of `zbx_is_time_suffix` on the
macro-substituted delay, `timeouts_ok` the combined outcome of the
`dcheck_get_timeout` calls, and `capacity_after` the remaining queue
capacity `queue_capacity_local` after `process_rule` expansion
(`process_rule`, in discoverer_taskprep.c, consumes capacity and leaves 0
when the rule would exceed it). -/
structure RuleCycleInput where
  druleid : Nat
  delay_str : String
  delay_str_subst : String
  parsed_delay : Option Nat
  timeouts_ok : Bool
  capacity_after : Nat
  expanded_counts : List CheckCount
deriving Repr

/-- Visible effects of one `process_discovery` iteration for one rule. -/
structure RuleCycleOut where
  errors : List (Nat × String)
  err_druleids : List Nat
  job_created : Bool
  added_counts : List CheckCount
  requeue_delay : Nat
deriving Repr

/-- One iteration of the rule loop in `process_discovery`
(discoverer.c:631-785): invalid delay records one rule error and requeues
at the default interval; an invalid global timeout fails the rule; an
exhausted queue capacity (`0 == queue_capacity_local`) records a
queue-full error, frees the expanded tasks and creates no job; otherwise
the job is created and the rule's check counts are published. -/
def process_discovery_rule (r : RuleCycleInput) : RuleCycleOut :=
  match r.parsed_delay with
  | none =>
      { errors := [(r.druleid, invalid_interval_error r.delay_str r.delay_str_subst)],
        err_druleids := [r.druleid], job_created := false, added_counts := [],
        requeue_delay := ZBX_DEFAULT_INTERVAL }
  | some delay =>
      if r.timeouts_ok = false then
        { errors := [(r.druleid, "invalid global timeout")],
          err_druleids := [r.druleid], job_created := false, added_counts := [],
          requeue_delay := delay }
      else if r.capacity_after = 0 then
        { errors := [(r.druleid, "discoverer queue is full, skipping discovery rule")],
          err_druleids := [r.druleid], job_created := false, added_counts := [],
          requeue_delay := delay }
      else
        { errors := [], err_druleids := [], job_created := true,
          added_counts := r.expanded_counts, requeue_delay := delay }

/-- `discover_results_partrange_merge` (discoverer.c:1037): commit an
IP-slice of async results.  The C loop walks the source vector from the
last index down to 0, so this recursion processes the tail first.  A
source record is skipped (`continue`, left in the vector) when `force` is
unset and its `processed_checks_per_ip` differs from the task cursor's
`checks_per_ip`, or when the outstanding-check decrement fails; otherwise
it is moved into the destination hashset and removed from the vector.
Returns (check counts, destination hashset, remaining source vector). -/
def discover_results_partrange_merge (druleid checksPerIp : Nat) (force : Bool) :
    List CheckCount → List DResult → List DResult →
      List CheckCount × List DResult × List DResult
  | cc, dst, [] => (cc, dst, [])
  | cc, dst, r :: rest =>
      let out := discover_results_partrange_merge druleid checksPerIp force cc dst rest
      if force = false ∧ r.processed_checks_per_ip ≠ checksPerIp then
        (out.1, out.2.1, r :: out.2.2)
      else
        match discoverer_check_count_decrease out.1 druleid r.ip r.processed_checks_per_ip with
        | none => (out.1, out.2.1, r :: out.2.2)
        | some (cc2, _) => (cc2, discover_results_move_value r out.2.1, out.2.2)

/-- The state threaded through `discover_results_merge`: the outstanding
check counts, the destination results hashset (`dmanager.results`) and the
worker's local source vector. -/
structure MergeState where
  cc : List CheckCount
  dst : List DResult
  src : List DResult
deriving Repr

/-- One iteration of the `zbx_iprange_uniq_next` loop in
`discover_results_merge` (discoverer.c:1079-1106), for the enumerated
address `ip`: decrement the outstanding count by the task's check count
(`discoverer_task_check_count_get`); on failure skip the address
(revision changed); otherwise move a matching source record into the
destination, or — if no probe produced a record and the remaining count
reached zero — register an empty entry for the host. -/
def merge_step (druleid uniq taskCheckCount : Nat) (st : MergeState) (ip : String) :
    MergeState :=
  match discoverer_check_count_decrease st.cc druleid ip taskCheckCount with
  | none => st
  | some (cc', remaining) =>
      match resFind st.src druleid ip with
      | none =>
          if remaining = 0 then
            { cc := cc', dst := (discover_results_host_reg st.dst druleid uniq ip).1,
              src := st.src }
          else { st with cc := cc' }
      | some r =>
          { cc := cc', dst := discover_results_move_value r st.dst,
            src := resRemoveFirst st.src druleid ip }

/-- `discover_results_merge` (discoverer.c:1068): full merge at range-task
completion.  `ips` is the sequence of distinct addresses produced by
`zbx_iprange_uniq_next` over the task's IP ranges. -/
def discover_results_merge (druleid uniq taskCheckCount : Nat) (ips : List String)
    (st : MergeState) : MergeState :=
  ips.foldl (merge_step druleid uniq taskCheckCount) st

/-- `DISCOVERER_BATCH_RESULTS_NUM` (discoverer.c:477). -/
def DISCOVERER_BATCH_RESULTS_NUM : Nat := 1000

/-- Total number of service rows carried by a list of results. -/
def sumServ (l : List DResult) : Nat :=
  (l.map (fun r => r.services.length)).sum

/-- State of the `process_results` scan over the results hashset:
results kept in the cache, results flushed out for persistence, the
`incomplete_druleids` set, the outstanding counts, and the
`res_check_total` / `res_check_count` accumulators. -/
structure PRState where
  kept : List DResult
  flushed : List DResult
  incomplete : List Nat
  cc : List CheckCount
  total : Nat
  cnt : Nat
deriving Repr

/-- `zbx_hashset_insert` into `incomplete_druleids` (set semantics). -/
def listInsertUniq (l : List Nat) (x : Nat) : List Nat :=
  if l.elem x then l else l ++ [x]

/-- One iteration of the scan loop of `process_results`
(discoverer.c:495-528) on result `r`: results of deleted rules are
dropped; a result is deferred (kept, rule marked incomplete) when the
flushed service count already reached `DISCOVERER_BATCH_RESULTS_NUM` or
its outstanding count is nonzero; otherwise it is flushed, its service
count added to `res_check_count`, and its (possibly zero) outstanding
entry removed. -/
def process_results_step (del : List Nat) (st : PRState) (r : DResult) : PRState :=
  if del.elem r.druleid then st
  else if DISCOVERER_BATCH_RESULTS_NUM ≤ st.cnt ∨
      (ccFind st.cc r.druleid r.ip).getD 0 ≠ 0 then
    { st with
      total := st.total + r.services.length
      incomplete := listInsertUniq st.incomplete r.druleid
      kept := st.kept ++ [r] }
  else
    { st with
      total := st.total + r.services.length
      cnt := st.cnt + r.services.length
      cc := if (ccFind st.cc r.druleid r.ip).isSome then
          ccRemoveFirst st.cc r.druleid r.ip else st.cc
      flushed := st.flushed ++ [r] }

/-- The initial accumulator of the `process_results` scan. -/
def prInit (cc : List CheckCount) : PRState :=
  { kept := [], flushed := [], incomplete := [], cc := cc, total := 0, cnt := 0 }

/-- The scan phase of `process_results` (discoverer.c:473-536) followed by
`process_results_incompleteresult_remove` (discoverer.c:441), which wipes
cached results and counts of every rule with a pending rule error.
`results` is the hashset iteration order, `del` the sorted
`del_druleids`, `errD` the druleids of `drule_errors`. -/
def process_results_scan (del errD : List Nat) (cc : List CheckCount)
    (results : List DResult) : PRState :=
  let st := results.foldl (process_results_step del) (prInit cc)
  { st with
    kept := st.kept.filter (fun r => !(errD.elem r.druleid))
    cc := st.cc.filter (fun e => !(errD.elem e.druleid)) }

/-- The return flag of `process_results` (discoverer.c:605):
nonzero iff `DISCOVERER_BATCH_RESULTS_NUM <= res_check_count`. -/
def process_results_more (st : PRState) : Bool :=
  decide (DISCOVERER_BATCH_RESULTS_NUM ≤ st.cnt)

/-- Per-result action of the flush loop of `process_results`
(discoverer.c:545-592). -/
inductive DrainAction where
  | updateRule (druleid : Nat) (err : Option String)
  | skipNoDns (druleid : Nat) (ip : String)
  | hostUpdate (druleid : Nat) (ip dns : String) (status : Option DStatus)
deriving Repr, DecidableEq

/-- `zbx_vector_discoverer_drule_error_search` + `remove`
(discoverer.c:558-562): take the first pending error of the rule out of
the vector. -/
def drule_error_take : List (Nat × String) → Nat → Option String × List (Nat × String)
  | [], _ => (none, [])
  | e :: rest, druleid =>
      if e.1 = druleid then (some e.2, rest)
      else
        let out := drule_error_take rest druleid
        (out.1, e :: out.2)

/-- Handling of one flushed result in `process_results`
(discoverer.c:545-592): an empty-IP sentinel becomes a rule-level update
consuming a pending rule error; a result without dnsname is skipped with
a warning; otherwise the host is updated with the status computed by
`process_services`. -/
def drain_result_action (errs : List (Nat × String)) (r : DResult) :
    DrainAction × List (Nat × String) :=
  if r.ip = "" then
    let out := drule_error_take errs r.druleid
    (DrainAction.updateRule r.druleid out.1, out.2)
  else
    match r.dnsname with
    | none => (DrainAction.skipNoDns r.druleid r.ip, errs)
    | some dns => (DrainAction.hostUpdate r.druleid r.ip dns (process_services r.services), errs)

/-- The no-more-tasks branch of the worker loop (discoverer.c:1247-1261):
when a popped job has no tasks left and no other worker holds it, the
empty-IP sentinel is registered and the job removed (`none`); otherwise
the job is marked `Removing`. -/
def worker_no_task_step (results : List DResult) (job : JobState) (druleid : Nat) :
    List DResult × Option JobState :=
  if job.workers_used = 0 then
    ((discover_results_host_reg results druleid 0 "").1, none)
  else (results, some { job with status := JobStatus.removing })

/-- Outcome of the post-probe bookkeeping (discoverer.c:1313-1337). -/
inductive WorkerOutcome where
  | requeued (j : JobState)
  | removed
  | idle (j : JobState)
deriving Repr, DecidableEq

/-- A `PartialResult` of a completed rule with no services (the shape used
in the C3 counterexample: the sentinel entries registered per completed
rule, one per druleid). -/
def c3emptyRes (i : Nat) : DResult :=
  { druleid := i, ip := "", dnsname := some "", unique_dcheckid := 0, now := 0,
    processed_checks_per_ip := 0, services := [] }

/-- A single completed `PartialResult` carrying 1000 `Up` services. -/
def c3bigRes : DResult :=
  { druleid := 1, ip := "192.0.2.1", dnsname := some "h", unique_dcheckid := 0, now := 0,
    processed_checks_per_ip := 0, services := List.replicate 1000 ⟨1, 80, DStatus.up, ""⟩ }

/-- The post-probe bookkeeping of the worker loop (discoverer.c:1313-1337),
error-free path: decrement `workers_used`; a `Waiting` job is re-queued;
a `Removing` job whose last worker finished registers the empty-IP
sentinel and is removed. -/
def worker_post_probe_step (results : List DResult) (job : JobState) (druleid : Nat) :
    List DResult × WorkerOutcome :=
  let job' : JobState := { job with workers_used := job.workers_used - 1 }
  if job'.status = JobStatus.waiting then
    (results, WorkerOutcome.requeued { job' with status := JobStatus.queued })
  else if job'.status = JobStatus.removing ∧ job'.workers_used = 0 then
    ((discover_results_host_reg results druleid 0 "").1, WorkerOutcome.removed)
  else (results, WorkerOutcome.idle job')

end Discoverer

namespace Discoverer

theorem sub64_lt (a b : Nat) : sub64 a b < 18446744073709551616 := by
  unfold sub64
  exact Nat.mod_lt _ (by decide)

/-- The fold of `host_status_step` never leaves `none` once seeded. -/
theorem host_status_fold_isSome (l : List DService) (h : DStatus) :
    ∃ h', l.foldl (fun hs sv => host_status_step hs sv.status) (some h) = some h' := by
  induction l generalizing h with
  | nil => exact ⟨h, rfl⟩
  | cons a rest ih =>
      have hstep : ∃ g, host_status_step (some h) a.status = some g := by
        unfold host_status_step
        rcases Classical.em (a.status = DStatus.up ∧ h ≠ a.status) with hc | hc
        · exact ⟨a.status, by simp [hc]⟩
        · exact ⟨h, by simp [hc]⟩
      obtain ⟨g, hg⟩ := hstep
      simp only [List.foldl_cons, hg]
      exact ih g

/-- The fold of `host_status_step` reaches `up` iff the seed is `up` or
some service in the list is `up`. -/
theorem host_status_fold_up_iff (l : List DService) (h : DStatus) :
    l.foldl (fun hs sv => host_status_step hs sv.status) (some h) = some DStatus.up ↔
      (h = DStatus.up ∨ ∃ sv ∈ l, sv.status = DStatus.up) := by
  induction l generalizing h with
  | nil => simp
  | cons a rest ih =>
      simp only [List.foldl_cons]
      rcases Classical.em (a.status = DStatus.up ∧ h ≠ a.status) with hc | hc
      · rw [show host_status_step (some h) a.status = some a.status by
          simp [host_status_step, hc]]
        rw [ih]
        constructor
        · rintro (h1 | h1)
          · exact Or.inr ⟨a, by simp, h1⟩
          · rcases h1 with ⟨sv, hsv, hst⟩
            exact Or.inr ⟨sv, by simp [hsv], hst⟩
        · intro _
          exact Or.inl hc.1
      · rw [show host_status_step (some h) a.status = some h by
          simp [host_status_step, hc]]
        rw [ih]
        constructor
        · rintro (h1 | h1)
          · exact Or.inl h1
          · rcases h1 with ⟨sv, hsv, hst⟩
            exact Or.inr ⟨sv, by simp [hsv], hst⟩
        · rintro (h1 | ⟨sv, hsv, hst⟩)
          · exact Or.inl h1
          · rcases List.mem_cons.mp hsv with rfl | hmem
            · rcases Classical.em (h = sv.status) with he | he
              · exact Or.inl (he.trans hst)
              · exact absurd ⟨hst, he⟩ hc
            · exact Or.inr ⟨sv, hmem, hst⟩

/-- Claim C1: For every result emitted by the drainer, the host status
computed by `process_services` and passed to `zbx_discovery_update_host`
is `Up` iff at least one of its services is `Up`, and also `Down`
(in particular for an empty service list) iff no service is `Up`. -/
theorem c1_process_services_host_status (services : List DService) :
    (process_services services = some DStatus.up ↔
        ∃ sv ∈ services, sv.status = DStatus.up) ∧
    (process_services services = some DStatus.down ↔
        ¬ ∃ sv ∈ services, sv.status = DStatus.up) := by
  cases services with
  | nil => simp [process_services]
  | cons a rest =>
      have hfold : (a :: rest).foldl (fun hs sv => host_status_step hs sv.status) none =
          rest.foldl (fun hs sv => host_status_step hs sv.status) (some a.status) := by
        simp [host_status_step]
      have hup := host_status_fold_up_iff rest a.status
      obtain ⟨h', hh'⟩ := host_status_fold_isSome rest a.status
      have hps : process_services (a :: rest) =
          rest.foldl (fun hs sv => host_status_step hs sv.status) (some a.status) := by
        simp [process_services, hfold]
      constructor
      · rw [hps, hup]
        constructor
        · rintro (h1 | ⟨sv, hsv, hst⟩)
          · exact ⟨a, by simp, h1⟩
          · exact ⟨sv, by simp [hsv], hst⟩
        · rintro ⟨sv, hsv, hst⟩
          rcases List.mem_cons.mp hsv with rfl | hmem
          · exact Or.inl hst
          · exact Or.inr ⟨sv, hmem, hst⟩
      · rw [hps, hh']
        cases h' with
        | up =>
            have : a.status = DStatus.up ∨ ∃ sv ∈ rest, sv.status = DStatus.up :=
              (hup).mp hh'
            constructor
            · intro hcontr
              exact absurd hcontr (by simp)
            · intro hno
              exfalso
              apply hno
              rcases this with h1 | ⟨sv, hsv, hst⟩
              · exact ⟨a, by simp, h1⟩
              · exact ⟨sv, by simp [hsv], hst⟩
        | down =>
            have hnotup : ¬ (a.status = DStatus.up ∨ ∃ sv ∈ rest, sv.status = DStatus.up) := by
              intro hcontr
              have := (hup).mpr hcontr
              rw [hh'] at this
              exact absurd this (by simp)
            constructor
            · intro _
              rintro ⟨sv, hsv, hst⟩
              rcases List.mem_cons.mp hsv with rfl | hmem
              · exact hnotup (Or.inl hst)
              · exact hnotup (Or.inr ⟨sv, hmem, hst⟩)
            · intro _
              rfl

/-- Witness for C1 at a concrete service list. -/
theorem c1_process_services_host_status_witness :
    process_services [⟨22, 22, DStatus.down, ""⟩, ⟨23, 80, DStatus.up, ""⟩] = some DStatus.up :=
  (c1_process_services_host_status _).1.mpr ⟨⟨23, 80, DStatus.up, ""⟩, by simp, rfl⟩

/-- Claim C9: the outstanding-check decrement fails iff the key is absent or
the stored count is already zero; otherwise it stores `old - n` reduced
modulo 2^64 (two's-complement wrap, no guard against `n` exceeding the
stored count). -/
theorem c9_check_count_decrease (cc : List CheckCount) (druleid : Nat) (ip : String) (n : Nat) :
    (discoverer_check_count_decrease cc druleid ip n = none ↔
        (ccFind cc druleid ip = none ∨ ccFind cc druleid ip = some 0)) ∧
    (∀ c, ccFind cc druleid ip = some c → c ≠ 0 →
        discoverer_check_count_decrease cc druleid ip n
          = some (ccSetFirst cc druleid ip (sub64 c n), sub64 c n) ∧
        (c < 18446744073709551616 →
          ((sub64 c n : Int) = ((c : Int) - (n : Int)) % (18446744073709551616 : Int)))) := by
  constructor
  · unfold discoverer_check_count_decrease
    cases hfind : ccFind cc druleid ip with
    | none => simp
    | some c =>
        rcases Classical.em (c = 0) with rfl | hc
        · simp
        · simp [hc]
  · intro c hfind hc
    constructor
    · unfold discoverer_check_count_decrease
      rw [hfind]
      simp [hc]
    · intro hlt
      unfold sub64
      have hb : n % 18446744073709551616 < 18446744073709551616 := Nat.mod_lt _ (by decide)
      have hmod : (n : Int) % 18446744073709551616 = ((n % 18446744073709551616 : Nat) : Int) := by
        push_cast
        rfl
      omega

/-- Witness for C9: decrementing a stored count of 1 by 5 succeeds and wraps
to 2^64 - 4 instead of failing. -/
theorem c9_check_count_decrease_witness :
    discoverer_check_count_decrease [⟨7, "192.0.2.9", 1⟩] 7 "192.0.2.9" 5
      = some ([⟨7, "192.0.2.9", 18446744073709551612⟩], 18446744073709551612) := by
  have h := (c9_check_count_decrease [⟨7, "192.0.2.9", 1⟩] 7 "192.0.2.9" 5).2 1 (by decide)
    (by decide)
  exact h.1.trans (by decide)

/-- Claim C5: when a worker commit of a sync-probe result finds no matching
outstanding-check entry for `(druleid, ip)` (or a count already zero, i.e.
the decrement fails), the contribution is silently dropped: the service is
freed and both the check-count map and the result cache are returned
unchanged. -/
theorem c5_commit_silent_drop (cc : List CheckCount) (rs : List DResult)
    (druleid uniq : Nat) (ip dns : String) (service : DService)
    (h : ccFind cc druleid ip = none ∨ ccFind cc druleid ip = some 0) :
    discoverer_net_check_common_commit cc rs druleid uniq ip dns service = (cc, rs) := by
  have hdec : discoverer_check_count_decrease cc druleid ip 1 = none :=
    (c9_check_count_decrease cc druleid ip 1).1.mpr h
  unfold discoverer_net_check_common_commit
  rw [hdec]

/-- Witness for C5 at a concrete state with no outstanding entry. -/
theorem c5_commit_silent_drop_witness :
    discoverer_net_check_common_commit [⟨9, "192.0.2.1", 4⟩] [] 3 0 "192.0.2.5" "host5"
        ⟨11, 80, DStatus.up, ""⟩ = ([⟨9, "192.0.2.1", 4⟩], []) :=
  c5_commit_silent_drop [⟨9, "192.0.2.1", 4⟩] [] 3 0 "192.0.2.5" "host5"
    ⟨11, 80, DStatus.up, ""⟩ (Or.inl (by decide))

/-- Claim C6: after a worker pops a task and increments `workers_used`, the
job is pushed back (with a notify) iff `workers_max` is 0 or the new
`workers_used` is strictly below `workers_max`; otherwise the job status
becomes `Waiting`.  The hypothesis is invariant 3 of the spec: a job never
has more workers than `workers_max` when `workers_max` is nonzero. -/
theorem c6_worker_requeue_decision (job : JobState)
    (hinv : job.workers_max = 0 ∨ job.workers_used + 1 ≤ job.workers_max) :
    ((worker_after_task_pop job).2 = true ↔
        (job.workers_max = 0 ∨ job.workers_used + 1 < job.workers_max)) ∧
    ((worker_after_task_pop job).2 = false →
        (worker_after_task_pop job).1.status = JobStatus.waiting) := by
  unfold worker_after_task_pop
  rcases Classical.em (job.workers_max = 0 ∨ job.workers_used + 1 ≠ job.workers_max) with hc | hc
  · rw [if_pos hc]
    constructor
    · constructor
      · intro _
        rcases hc with h0 | hne
        · exact Or.inl h0
        · rcases hinv with h0 | hle
          · exact Or.inl h0
          · exact Or.inr (by omega)
      · intro _
        rfl
    · intro hfc
      exact absurd hfc (by simp)
  · rw [if_neg hc]
    push_neg at hc
    constructor
    · constructor
      · intro hft
        exact absurd hft (by simp)
      · intro hor
        exfalso
        rcases hor with h0 | hlt
        · exact hc.1 h0
        · omega
    · intro _
      rfl

/-- Witness for C6: with `workers_max = 3` and two workers already used, the
third pop hits the cap and the job is parked `Waiting`, not re-pushed. -/
theorem c6_worker_requeue_decision_witness :
    ((worker_after_task_pop ⟨2, 3, JobStatus.queued⟩).2 = false) ∧
    (worker_after_task_pop ⟨2, 3, JobStatus.queued⟩).1.status = JobStatus.waiting := by
  have h := c6_worker_requeue_decision ⟨2, 3, JobStatus.queued⟩ (Or.inr (by decide))
  have hfalse : (worker_after_task_pop ⟨2, 3, JobStatus.queued⟩).2 = false := by
    rcases Bool.eq_false_or_eq_true (worker_after_task_pop ⟨2, 3, JobStatus.queued⟩).2 with ht | hf
    · exfalso
      rcases h.1.mp ht with h0 | hlt
      · exact absurd h0 (by decide)
      · exact absurd hlt (by decide)
    · exact hf
  exact ⟨hfalse, h.2 hfalse⟩

/-- Claim C4: when `process_rule` expansion exhausts the remaining queue
capacity (`queue_capacity_local` ends at 0), the scheduler refuses the
rule entirely: exactly one queue-full error is recorded, no job is
created, no outstanding counts are added, and the rule is requeued at its
(successfully parsed) delay, i.e. its next natural due time. -/
theorem c4_queue_full_refusal (r : RuleCycleInput) (d : Nat)
    (hd : r.parsed_delay = some d) (ht : r.timeouts_ok = true)
    (hc : r.capacity_after = 0) :
    process_discovery_rule r =
      { errors := [(r.druleid, "discoverer queue is full, skipping discovery rule")],
        err_druleids := [r.druleid], job_created := false, added_counts := [],
        requeue_delay := d } := by
  unfold process_discovery_rule
  rw [hd]
  simp [ht, hc]

/-- Witness for C4 at a concrete rule whose expansion left zero capacity. -/
theorem c4_queue_full_refusal_witness :
    process_discovery_rule
        { druleid := 5, delay_str := "1h", delay_str_subst := "1h",
          parsed_delay := some 3600, timeouts_ok := true, capacity_after := 0,
          expanded_counts := [⟨5, "10.0.0.1", 2⟩] } =
      { errors := [(5, "discoverer queue is full, skipping discovery rule")],
        err_druleids := [5], job_created := false, added_counts := [],
        requeue_delay := 3600 } :=
  c4_queue_full_refusal _ 3600 rfl rfl rfl

/-- Claim C8: a due rule whose delay expression is invalid after user-macro
substitution records exactly one rule error whose text contains
`invalid update interval`, creates no job (hence no host events) and no
outstanding counts, and is requeued at the default interval. -/
theorem c8_invalid_delay (r : RuleCycleInput) (hd : r.parsed_delay = none) :
    (∃ pre post, (process_discovery_rule r).errors
        = [(r.druleid, pre ++ "invalid update interval" ++ post)]) ∧
    (process_discovery_rule r).errors.length = 1 ∧
    (process_discovery_rule r).job_created = false ∧
    (process_discovery_rule r).added_counts = [] ∧
    (process_discovery_rule r).requeue_delay = ZBX_DEFAULT_INTERVAL := by
  have hout : process_discovery_rule r =
      { errors := [(r.druleid, invalid_interval_error r.delay_str r.delay_str_subst)],
        err_druleids := [r.druleid], job_created := false, added_counts := [],
        requeue_delay := ZBX_DEFAULT_INTERVAL } := by
    unfold process_discovery_rule
    rw [hd]
  refine ⟨⟨"discovery rule \"" ++ r.delay_str ++ "\": ", " \"" ++ r.delay_str_subst ++ "\"", ?_⟩,
    by rw [hout]; rfl, by rw [hout], by rw [hout], by rw [hout]⟩
  rw [hout]
  unfold invalid_interval_error
  have hsplit1 : ("\": invalid update interval \"" : String)
      = "\": " ++ "invalid update interval" ++ " \"" := by decide
  simp only [String.append_assoc, hsplit1]

/-- Witness for C8 at a concrete rule with unparsable delay `abc`. -/
theorem c8_invalid_delay_witness :
    (∃ pre post,
      (process_discovery_rule
        { druleid := 3, delay_str := "abc", delay_str_subst := "abc",
          parsed_delay := none, timeouts_ok := true, capacity_after := 7,
          expanded_counts := [] }).errors
          = [(3, pre ++ "invalid update interval" ++ post)]) ∧
    (process_discovery_rule
        { druleid := 3, delay_str := "abc", delay_str_subst := "abc",
          parsed_delay := none, timeouts_ok := true, capacity_after := 7,
          expanded_counts := [] }).job_created = false :=
  have h := c8_invalid_delay
    { druleid := 3, delay_str := "abc", delay_str_subst := "abc",
      parsed_delay := none, timeouts_ok := true, capacity_after := 7,
      expanded_counts := [] } rfl
  ⟨h.1, h.2.2.1⟩

/-- Claim C7: in a partial-range commit (async worker, `force = 0`) a source
record is merged into the result cache iff its `processed_checks_per_ip`
equals the task's `checks_per_ip` and the outstanding-check decrement for
its key succeeds; otherwise (mismatching count, or failed decrement) it is
skipped and left in the source vector.  Stated for the record processed
last (the head of the vector), over the state left by the rest of the
vector, which covers every processing step by generality of the state. -/
theorem c7_partrange_merge_iff (druleid checksPerIp : Nat) (cc : List CheckCount)
    (dst : List DResult) (r : DResult) (rest : List DResult) :
    (r.processed_checks_per_ip = checksPerIp →
      (∀ cc2 c,
        discoverer_check_count_decrease
            (discover_results_partrange_merge druleid checksPerIp false cc dst rest).1
            druleid r.ip r.processed_checks_per_ip = some (cc2, c) →
        discover_results_partrange_merge druleid checksPerIp false cc dst (r :: rest)
          = (cc2,
             discover_results_move_value r
               (discover_results_partrange_merge druleid checksPerIp false cc dst rest).2.1,
             (discover_results_partrange_merge druleid checksPerIp false cc dst rest).2.2)) ∧
      (discoverer_check_count_decrease
            (discover_results_partrange_merge druleid checksPerIp false cc dst rest).1
            druleid r.ip r.processed_checks_per_ip = none →
        discover_results_partrange_merge druleid checksPerIp false cc dst (r :: rest)
          = ((discover_results_partrange_merge druleid checksPerIp false cc dst rest).1,
             (discover_results_partrange_merge druleid checksPerIp false cc dst rest).2.1,
             r :: (discover_results_partrange_merge druleid checksPerIp false cc dst rest).2.2))) ∧
    (r.processed_checks_per_ip ≠ checksPerIp →
      discover_results_partrange_merge druleid checksPerIp false cc dst (r :: rest)
        = ((discover_results_partrange_merge druleid checksPerIp false cc dst rest).1,
           (discover_results_partrange_merge druleid checksPerIp false cc dst rest).2.1,
           r :: (discover_results_partrange_merge druleid checksPerIp false cc dst rest).2.2)) := by
  constructor
  · intro heq
    constructor
    · intro cc2 c hdec
      show (let out := discover_results_partrange_merge druleid checksPerIp false cc dst rest;
        if false = false ∧ r.processed_checks_per_ip ≠ checksPerIp then
          (out.1, out.2.1, r :: out.2.2)
        else
          match discoverer_check_count_decrease out.1 druleid r.ip r.processed_checks_per_ip with
          | none => (out.1, out.2.1, r :: out.2.2)
          | some (cc2, _) => (cc2, discover_results_move_value r out.2.1, out.2.2)) = _
      rw [if_neg (by simp [heq])]
      rw [hdec]
    · intro hdec
      show (let out := discover_results_partrange_merge druleid checksPerIp false cc dst rest;
        if false = false ∧ r.processed_checks_per_ip ≠ checksPerIp then
          (out.1, out.2.1, r :: out.2.2)
        else
          match discoverer_check_count_decrease out.1 druleid r.ip r.processed_checks_per_ip with
          | none => (out.1, out.2.1, r :: out.2.2)
          | some (cc2, _) => (cc2, discover_results_move_value r out.2.1, out.2.2)) = _
      rw [if_neg (by simp [heq])]
      rw [hdec]
  · intro hne
    show (let out := discover_results_partrange_merge druleid checksPerIp false cc dst rest;
      if false = false ∧ r.processed_checks_per_ip ≠ checksPerIp then
        (out.1, out.2.1, r :: out.2.2)
      else
        match discoverer_check_count_decrease out.1 druleid r.ip r.processed_checks_per_ip with
        | none => (out.1, out.2.1, r :: out.2.2)
        | some (cc2, _) => (cc2, discover_results_move_value r out.2.1, out.2.2)) = _
    rw [if_pos ⟨rfl, hne⟩]

/-- Witness for C7: a matching record with a live outstanding count is
merged; a mismatching record stays in the source vector. -/
theorem c7_partrange_merge_iff_witness :
    discover_results_partrange_merge 2 1 false [⟨2, "10.0.0.7", 1⟩] []
        [{ druleid := 2, ip := "10.0.0.7", dnsname := some "h7", unique_dcheckid := 0,
           now := 0, processed_checks_per_ip := 1, services := [] }]
      = ([⟨2, "10.0.0.7", 0⟩],
         [{ druleid := 2, ip := "10.0.0.7", dnsname := some "h7", unique_dcheckid := 0,
            now := 0, processed_checks_per_ip := 1, services := [] }], []) :=
  ((c7_partrange_merge_iff 2 1 [⟨2, "10.0.0.7", 1⟩] []
      { druleid := 2, ip := "10.0.0.7", dnsname := some "h7", unique_dcheckid := 0,
        now := 0, processed_checks_per_ip := 1, services := [] } []).1 rfl).1
    [⟨2, "10.0.0.7", 0⟩] 0 (by decide) |>.trans (by decide)

theorem find?_cons_pos {α : Type} (p : α → Bool) (a : α) (l : List α) (h : p a = true) :
    List.find? p (a :: l) = some a :=
  List.find?_cons_of_pos l h

theorem find?_cons_neg {α : Type} (p : α → Bool) (a : α) (l : List α) (h : ¬ p a = true) :
    List.find? p (a :: l) = List.find? p l :=
  List.find?_cons_of_neg l h

theorem ccKey_iff (e : CheckCount) (d : Nat) (i : String) :
    ccKey e d i = true ↔ (e.druleid = d ∧ e.ip = i) := by
  simp [ccKey]

theorem find?_some_explicit {α : Type} (p : α → Bool) (l : List α) (a : α)
    (h : List.find? p l = some a) : p a = true :=
  List.find?_some h

theorem resFind_some_key (rs : List DResult) (d : Nat) (i : String) (r : DResult)
    (h : resFind rs d i = some r) : resKey r d i = true := by
  unfold resFind at h
  exact find?_some_explicit (fun r => resKey r d i) rs r h

theorem resKey_iff (r : DResult) (d : Nat) (i : String) :
    resKey r d i = true ↔ (r.druleid = d ∧ r.ip = i) := by
  simp [resKey]

theorem fix_dnsname_keys (r : DResult) :
    (fix_dnsname r).druleid = r.druleid ∧ (fix_dnsname r).ip = r.ip := by
  unfold fix_dnsname
  by_cases h : r.dnsname = none
  · rw [if_pos h]
    exact ⟨rfl, rfl⟩
  · rw [if_neg h]
    exact ⟨rfl, rfl⟩

/-- Updating the counter stored under one key leaves lookups of any other
key untouched. -/
theorem ccFind_setFirst_ne (cc : List CheckCount) (d : Nat) (i : String) (c : Nat)
    (d' : Nat) (i' : String) (hne : ¬(d' = d ∧ i' = i)) :
    ccFind (ccSetFirst cc d i c) d' i' = ccFind cc d' i' := by
  induction cc with
  | nil => rfl
  | cons e rest ih =>
      by_cases he : ccKey e d i = true
      · have hkey := (ccKey_iff e d i).mp he
        have hne' : ¬ ccKey e d' i' = true := by
          intro h
          obtain ⟨h1', h2'⟩ := (ccKey_iff e d' i').mp h
          exact hne ⟨h1'.symm.trans hkey.1, h2'.symm.trans hkey.2⟩
        have hne'' : ¬ ccKey { e with count := c } d' i' = true := hne'
        unfold ccSetFirst
        rw [if_pos he]
        unfold ccFind
        rw [find?_cons_neg (fun e => ccKey e d' i') _ _ hne'',
          find?_cons_neg (fun e => ccKey e d' i') _ _ hne']
      · unfold ccSetFirst
        rw [if_neg he]
        by_cases he' : ccKey e d' i' = true
        · unfold ccFind
          rw [find?_cons_pos (fun e => ccKey e d' i') _ _ he',
            find?_cons_pos (fun e => ccKey e d' i') _ _ he']
        · unfold ccFind
          rw [find?_cons_neg (fun e => ccKey e d' i') _ _ he',
            find?_cons_neg (fun e => ccKey e d' i') _ _ he']
          have h := ih
          unfold ccFind at h
          exact h

/-- Expansion of a failing decrement. -/
theorem decrease_fail_eq (cc : List CheckCount) (d : Nat) (i : String) (n : Nat)
    (h : ccFind cc d i = none ∨ ccFind cc d i = some 0) :
    discoverer_check_count_decrease cc d i n = none := by
  unfold discoverer_check_count_decrease
  rcases h with h | h
  · rw [h]
  · rw [h]
    simp

/-- Expansion of a successful decrement. -/
theorem decrease_some_eq (cc : List CheckCount) (d : Nat) (i : String) (n c : Nat)
    (hf : ccFind cc d i = some c) (hc : ¬ c = 0) :
    discoverer_check_count_decrease cc d i n
      = some (ccSetFirst cc d i (sub64 c n), sub64 c n) := by
  unfold discoverer_check_count_decrease
  rw [hf]
  simp [hc]

/-- A successful decrement only rewrites the counter of its own key. -/
theorem ccFind_decrease_ne (cc : List CheckCount) (d : Nat) (i : String) (n : Nat)
    (cc' : List CheckCount) (rem : Nat)
    (h : discoverer_check_count_decrease cc d i n = some (cc', rem))
    (d' : Nat) (i' : String) (hne : ¬(d' = d ∧ i' = i)) :
    ccFind cc' d' i' = ccFind cc d' i' := by
  cases hf : ccFind cc d i with
  | none =>
      rw [decrease_fail_eq cc d i n (Or.inl hf)] at h
      cases h
  | some c =>
      by_cases hc : c = 0
      · rw [decrease_fail_eq cc d i n (Or.inr (hc ▸ hf))] at h
        cases h
      · rw [decrease_some_eq cc d i n c hf hc] at h
        simp only [Option.some.injEq, Prod.mk.injEq] at h
        rw [← h.1]
        exact ccFind_setFirst_ne cc d i (sub64 c n) d' i' hne

/-- Removing an entry cannot create a hit for a key that had none. -/
theorem resFind_removeFirst_none (rs : List DResult) (d : Nat) (i : String)
    (d' : Nat) (i' : String) (h : resFind rs d' i' = none) :
    resFind (resRemoveFirst rs d i) d' i' = none := by
  induction rs with
  | nil => rfl
  | cons r rest ih =>
      unfold resFind at h
      by_cases hk : resKey r d' i' = true
      · rw [find?_cons_pos (fun r => resKey r d' i') _ _ hk] at h
        cases h
      · rw [find?_cons_neg (fun r => resKey r d' i') _ _ hk] at h
        unfold resRemoveFirst
        by_cases hr : resKey r d i = true
        · rw [if_pos hr]
          exact h
        · rw [if_neg hr]
          unfold resFind
          rw [find?_cons_neg (fun r => resKey r d' i') _ _ hk]
          exact ih h

/-- A key-preserving in-place update of one key leaves lookups of any other
key untouched. -/
theorem resFind_updateFirst_ne (rs : List DResult) (d : Nat) (i : String)
    (f : DResult → DResult) (hf : ∀ r, (f r).druleid = r.druleid ∧ (f r).ip = r.ip)
    (d' : Nat) (i' : String) (hne : ¬(d' = d ∧ i' = i)) :
    resFind (resUpdateFirst rs d i f) d' i' = resFind rs d' i' := by
  induction rs with
  | nil => rfl
  | cons r rest ih =>
      unfold resUpdateFirst
      by_cases hr : resKey r d i = true
      · rw [if_pos hr]
        have hkey := (resKey_iff r d i).mp hr
        have hnk : ¬ resKey r d' i' = true := by
          intro h
          obtain ⟨h1, h2⟩ := (resKey_iff r d' i').mp h
          exact hne ⟨h1.symm.trans hkey.1, h2.symm.trans hkey.2⟩
        have hnkf : ¬ resKey (f r) d' i' = true := by
          intro h
          obtain ⟨h1, h2⟩ := (resKey_iff (f r) d' i').mp h
          exact hnk ((resKey_iff r d' i').mpr
            ⟨(hf r).1.symm.trans h1, (hf r).2.symm.trans h2⟩)
        unfold resFind
        rw [find?_cons_neg (fun r => resKey r d' i') _ _ hnkf,
          find?_cons_neg (fun r => resKey r d' i') _ _ hnk]
      · rw [if_neg hr]
        by_cases hk : resKey r d' i' = true
        · unfold resFind
          rw [find?_cons_pos (fun r => resKey r d' i') _ _ hk,
            find?_cons_pos (fun r => resKey r d' i') _ _ hk]
        · unfold resFind
          rw [find?_cons_neg (fun r => resKey r d' i') _ _ hk,
            find?_cons_neg (fun r => resKey r d' i') _ _ hk]
          have h := ih
          unfold resFind at h
          exact h

/-- Registering a host under one key leaves lookups of any other key
untouched. -/
theorem resFind_host_reg_ne (rs : List DResult) (d u : Nat) (i : String)
    (d' : Nat) (i' : String) (hne : ¬(d' = d ∧ i' = i)) :
    resFind (discover_results_host_reg rs d u i).1 d' i' = resFind rs d' i' := by
  unfold discover_results_host_reg
  cases hf : resFind rs d i with
  | some x => rfl
  | none =>
      show resFind (emptyResult d u i :: rs) d' i' = resFind rs d' i'
      have hnk : ¬ resKey (emptyResult d u i) d' i' = true := by
        intro h
        obtain ⟨h1, h2⟩ := (resKey_iff _ d' i').mp h
        exact hne ⟨h1.symm, h2.symm⟩
      unfold resFind
      rw [find?_cons_neg (fun r => resKey r d' i') _ _ hnk]

/-- Registering a host for an absent key prepends exactly the empty record. -/
theorem resFind_host_reg_fresh (rs : List DResult) (d u : Nat) (i : String)
    (h : resFind rs d i = none) :
    (discover_results_host_reg rs d u i).1 = emptyResult d u i :: rs ∧
    resFind (discover_results_host_reg rs d u i).1 d i = some (emptyResult d u i) := by
  unfold discover_results_host_reg
  rw [h]
  refine ⟨rfl, ?_⟩
  show resFind (emptyResult d u i :: rs) d i = some (emptyResult d u i)
  unfold resFind
  rw [find?_cons_pos (fun r => resKey r d i) _ _ ((resKey_iff _ d i).mpr ⟨rfl, rfl⟩)]

/-- Moving a record with one key into the destination hashset leaves lookups
of any other key untouched. -/
theorem resFind_move_value_ne (src : DResult) (dst : List DResult)
    (d : Nat) (i : String) (hne : ¬(d = src.druleid ∧ i = src.ip)) :
    resFind (discover_results_move_value src dst) d i = resFind dst d i := by
  unfold discover_results_move_value
  cases hf : resFind dst src.druleid src.ip with
  | none =>
      show resFind (fix_dnsname src :: dst) d i = resFind dst d i
      have hnk : ¬ resKey (fix_dnsname src) d i = true := by
        intro h
        obtain ⟨h1, h2⟩ := (resKey_iff _ d i).mp h
        exact hne ⟨h1.symm.trans (fix_dnsname_keys src).1,
          h2.symm.trans (fix_dnsname_keys src).2⟩
      unfold resFind
      rw [find?_cons_neg (fun r => resKey r d i) _ _ hnk]
  | some x =>
      apply resFind_updateFirst_ne
      · intro r
        by_cases hc : r.dnsname = some "" ∧ (fix_dnsname src).dnsname ≠ some ""
        · exact ⟨by simp only [if_pos hc], by simp only [if_pos hc]⟩
        · exact ⟨by simp only [if_neg hc], by simp only [if_neg hc]⟩
      · exact hne

/-- A failing decrement makes the merge step a no-op (the address is
skipped: the rule's revision changed). -/
theorem merge_step_fail (druleid uniq tcc : Nat) (st : MergeState) (ip : String)
    (h : discoverer_check_count_decrease st.cc druleid ip tcc = none) :
    merge_step druleid uniq tcc st ip = st := by
  unfold merge_step
  rw [h]

/-- Merge step for an address with no probe record whose outstanding count
drops to zero: the empty host is registered. -/
theorem merge_step_nosrc_zero (druleid uniq tcc : Nat) (st : MergeState) (ip : String)
    (cc' : List CheckCount)
    (hdec : discoverer_check_count_decrease st.cc druleid ip tcc = some (cc', 0))
    (hsrc : resFind st.src druleid ip = none) :
    merge_step druleid uniq tcc st ip =
      { cc := cc', dst := (discover_results_host_reg st.dst druleid uniq ip).1,
        src := st.src } := by
  have hbody : merge_step druleid uniq tcc st ip =
      (match resFind st.src druleid ip with
        | none =>
            if (0 : Nat) = 0 then
              { cc := cc', dst := (discover_results_host_reg st.dst druleid uniq ip).1,
                src := st.src }
            else { st with cc := cc' }
        | some r =>
            { cc := cc', dst := discover_results_move_value r st.dst,
              src := resRemoveFirst st.src druleid ip }) := by
    unfold merge_step
    rw [hdec]
  rw [hbody, hsrc]
  rfl

/-- A merge step at one address only touches the three maps at that
address's key: lookups at any other enumerated address are preserved. -/
theorem merge_step_preserve (druleid uniq tcc : Nat) (st : MergeState) (ip' ip : String)
    (hne : ip ≠ ip') :
    resFind (merge_step druleid uniq tcc st ip').dst druleid ip = resFind st.dst druleid ip ∧
    ccFind (merge_step druleid uniq tcc st ip').cc druleid ip = ccFind st.cc druleid ip ∧
    (resFind st.src druleid ip = none →
      resFind (merge_step druleid uniq tcc st ip').src druleid ip = none) := by
  cases hdec : discoverer_check_count_decrease st.cc druleid ip' tcc with
  | none =>
      rw [merge_step_fail druleid uniq tcc st ip' hdec]
      exact ⟨rfl, rfl, fun h => h⟩
  | some p =>
      obtain ⟨cc', rem⟩ := p
      have hccne : ccFind cc' druleid ip = ccFind st.cc druleid ip :=
        ccFind_decrease_ne st.cc druleid ip' tcc cc' rem hdec druleid ip
          (fun h => hne h.2)
      have hbody : merge_step druleid uniq tcc st ip' =
          (match resFind st.src druleid ip' with
            | none =>
                if rem = 0 then
                  { cc := cc', dst := (discover_results_host_reg st.dst druleid uniq ip').1,
                    src := st.src }
                else { st with cc := cc' }
            | some r =>
                { cc := cc', dst := discover_results_move_value r st.dst,
                  src := resRemoveFirst st.src druleid ip' }) := by
        unfold merge_step
        rw [hdec]
      cases hsf : resFind st.src druleid ip' with
      | none =>
          rw [hsf] at hbody
          by_cases hrem : rem = 0
          · rw [if_pos hrem] at hbody
            rw [hbody]
            refine ⟨?_, hccne, fun h => h⟩
            exact resFind_host_reg_ne st.dst druleid uniq ip' druleid ip
              (fun h => hne h.2)
          · rw [if_neg hrem] at hbody
            rw [hbody]
            exact ⟨rfl, hccne, fun h => h⟩
      | some r =>
          rw [hsf] at hbody
          rw [hbody]
          have hrkey : resKey r druleid ip' = true :=
            resFind_some_key st.src druleid ip' r hsf
          obtain ⟨hr1, hr2⟩ := (resKey_iff r druleid ip').mp hrkey
          refine ⟨?_, hccne, fun h => resFind_removeFirst_none st.src druleid ip' druleid ip h⟩
          exact resFind_move_value_ne r st.dst druleid ip
            (fun h => hne (h.2.trans hr2))

/-- Folding merge steps over addresses not containing `ip` preserves the
destination lookup at `(druleid, ip)`. -/
theorem merge_fold_preserve_dst (druleid uniq tcc : Nat) (ips : List String) (ip : String)
    (hnot : ip ∉ ips) (st : MergeState) :
    resFind (discover_results_merge druleid uniq tcc ips st).dst druleid ip
      = resFind st.dst druleid ip := by
  induction ips generalizing st with
  | nil => rfl
  | cons a rest ih =>
      have hne : ip ≠ a := fun h => hnot (h ▸ List.mem_cons_self a rest)
      have hstep := (merge_step_preserve druleid uniq tcc st a ip hne).1
      show resFind (discover_results_merge druleid uniq tcc rest
          (merge_step druleid uniq tcc st a)).dst druleid ip = resFind st.dst druleid ip
      rw [ih (fun h => hnot (List.mem_cons_of_mem a h)), hstep]

/-- Claim C2 (amended): at completion of a range task the full merge walks
every enumerated address; an address with no probe record gets an empty
`PartialResult` (empty services, dnsname `""`) inserted into the result
cache, provided its outstanding-check entry is still present (no revision
change) and the decrement leaves zero remaining. -/
theorem c2_merge_inserts_empty_host (druleid uniq tcc : Nat) (ips : List String)
    (ip : String) (st : MergeState) (hips : ip ∈ ips) (hnd : ips.Nodup)
    (c : Nat) (hcc : ccFind st.cc druleid ip = some c) (hc0 : c ≠ 0)
    (hz : sub64 c tcc = 0)
    (hsrc : resFind st.src druleid ip = none)
    (hdst : resFind st.dst druleid ip = none) :
    resFind (discover_results_merge druleid uniq tcc ips st).dst druleid ip
      = some (emptyResult druleid uniq ip) := by
  induction ips generalizing st with
  | nil => cases hips
  | cons a rest ih =>
      by_cases ha : a = ip
      · subst ha
        have hnot : a ∉ rest := (List.nodup_cons.mp hnd).1
        have hdec : discoverer_check_count_decrease st.cc druleid a tcc
            = some (ccSetFirst st.cc druleid a (sub64 c tcc), 0) := by
          rw [decrease_some_eq st.cc druleid a tcc c hcc hc0, hz]
        have hstep := merge_step_nosrc_zero druleid uniq tcc st a
          (ccSetFirst st.cc druleid a (sub64 c tcc)) hdec hsrc
        show resFind (discover_results_merge druleid uniq tcc rest
            (merge_step druleid uniq tcc st a)).dst druleid a
          = some (emptyResult druleid uniq a)
        rw [merge_fold_preserve_dst druleid uniq tcc rest a hnot _, hstep]
        exact (resFind_host_reg_fresh st.dst druleid uniq a hdst).2
      · have hmem : ip ∈ rest := by
          rcases List.mem_cons.mp hips with h | h
          · exact absurd h.symm ha
          · exact h
        have hne : ip ≠ a := fun h => ha h.symm
        have hpres := merge_step_preserve druleid uniq tcc st a ip hne
        show resFind (discover_results_merge druleid uniq tcc rest
            (merge_step druleid uniq tcc st a)).dst druleid ip
          = some (emptyResult druleid uniq ip)
        exact ih (merge_step druleid uniq tcc st a) hmem (List.nodup_cons.mp hnd).2
          (hpres.2.1.trans hcc) (hpres.2.2 hsrc) (hpres.1.trans hdst)

/-- Witness for C2 (amended) on a two-address range with one probe hit
missing and live outstanding counts. -/
theorem c2_merge_inserts_empty_host_witness :
    resFind (discover_results_merge 1 9 2 ["10.0.0.1", "10.0.0.2"]
        { cc := [⟨1, "10.0.0.1", 2⟩, ⟨1, "10.0.0.2", 2⟩], dst := [], src := [] }).dst
      1 "10.0.0.1" = some (emptyResult 1 9 "10.0.0.1") :=
  c2_merge_inserts_empty_host 1 9 2 ["10.0.0.1", "10.0.0.2"] "10.0.0.1"
    { cc := [⟨1, "10.0.0.1", 2⟩, ⟨1, "10.0.0.2", 2⟩], dst := [], src := [] }
    (by simp) (by simp) 2 (by decide) (by decide) (by decide) rfl rfl

/-- Counterexample to C2 as stated: an enumerated address with no probe
record but whose outstanding-check entry was wiped (rule revision changed)
gets NO empty `PartialResult` inserted — the merge skips it, so the claim's
unconditional insertion is false. -/
theorem c2_counterexample :
    resFind (discover_results_merge 1 0 1 ["192.0.2.1"]
        { cc := [], dst := [], src := [] }).dst 1 "192.0.2.1" = none := by
  decide

theorem sumServ_append (l1 l2 : List DResult) :
    sumServ (l1 ++ l2) = sumServ l1 + sumServ l2 := by
  simp [sumServ]

/-- The scan loop of `process_results` maintains: `res_check_count` equals
the total service count of the flushed results, and every result was
flushed while the accumulated count was still below the batch limit. -/
theorem process_results_step_invariant (del : List Nat) (st : PRState) (r : DResult)
    (h1 : st.cnt = sumServ st.flushed)
    (h2 : ∀ i, i < st.flushed.length →
      sumServ (st.flushed.take i) < DISCOVERER_BATCH_RESULTS_NUM) :
    (process_results_step del st r).cnt = sumServ (process_results_step del st r).flushed ∧
    (∀ i, i < (process_results_step del st r).flushed.length →
      sumServ ((process_results_step del st r).flushed.take i)
        < DISCOVERER_BATCH_RESULTS_NUM) := by
  unfold process_results_step
  by_cases hdel : del.elem r.druleid = true
  · rw [if_pos hdel]
    exact ⟨h1, h2⟩
  · rw [if_neg hdel]
    by_cases hc : DISCOVERER_BATCH_RESULTS_NUM ≤ st.cnt ∨
        (ccFind st.cc r.druleid r.ip).getD 0 ≠ 0
    · rw [if_pos hc]
      exact ⟨h1, h2⟩
    · rw [if_neg hc]
      push_neg at hc
      have hlt : st.cnt < DISCOVERER_BATCH_RESULTS_NUM := hc.1
      constructor
      · show st.cnt + r.services.length = sumServ (st.flushed ++ [r])
        rw [sumServ_append, h1]
        simp [sumServ]
      · intro i hi
        show sumServ ((st.flushed ++ [r]).take i) < DISCOVERER_BATCH_RESULTS_NUM
        have hilen : i < st.flushed.length + 1 := by
          simpa using hi
        rcases Nat.lt_or_ge i st.flushed.length with hlt' | hge
        · rw [List.take_append_of_le_length (Nat.le_of_lt hlt')]
          exact h2 i hlt'
        · have hieq : i = st.flushed.length := by omega
          rw [hieq, List.take_append_of_le_length (Nat.le_refl _), List.take_length]
          rw [← h1]
          exact hlt

/-- Fold form of the scan invariant. -/
theorem process_results_fold_invariant (del : List Nat) (results : List DResult)
    (st : PRState) (h1 : st.cnt = sumServ st.flushed)
    (h2 : ∀ i, i < st.flushed.length →
      sumServ (st.flushed.take i) < DISCOVERER_BATCH_RESULTS_NUM) :
    (results.foldl (process_results_step del) st).cnt
        = sumServ (results.foldl (process_results_step del) st).flushed ∧
    (∀ i, i < (results.foldl (process_results_step del) st).flushed.length →
      sumServ ((results.foldl (process_results_step del) st).flushed.take i)
        < DISCOVERER_BATCH_RESULTS_NUM) := by
  induction results generalizing st with
  | nil => exact ⟨h1, h2⟩
  | cons r rest ih =>
      simp only [List.foldl_cons]
      have hstep := process_results_step_invariant del st r h1 h2
      exact ih (process_results_step del st r) hstep.1 hstep.2

/-- Claim C3 (amended): the drain cycle's batch limit applies to the total
number of emitted service checks, not to the number of flushed partials —
every partial is flushed only while the accumulated service count of the
cycle is still below `DISCOVERER_BATCH_RESULTS_NUM`, and the returned
skip-sleep flag is nonzero exactly when that accumulated count reached
the limit. -/
theorem c3_drain_batch_bound (del errD : List Nat) (cc : List CheckCount)
    (results : List DResult) :
    (process_results_more (process_results_scan del errD cc results) = true ↔
      DISCOVERER_BATCH_RESULTS_NUM
        ≤ sumServ (process_results_scan del errD cc results).flushed) ∧
    (∀ i, i < (process_results_scan del errD cc results).flushed.length →
      sumServ ((process_results_scan del errD cc results).flushed.take i)
        < DISCOVERER_BATCH_RESULTS_NUM) := by
  have hinv := process_results_fold_invariant del results (prInit cc)
    rfl (by intro i hi; exact absurd hi (by simp [prInit]))
  constructor
  · show decide (DISCOVERER_BATCH_RESULTS_NUM
        ≤ (results.foldl (process_results_step del) (prInit cc)).cnt) = true ↔ _
    rw [decide_eq_true_iff]
    rw [hinv.1]
    exact Iff.rfl
  · exact hinv.2

/-- Witness for C3 (amended) at a concrete drain state. -/
theorem c3_drain_batch_bound_witness :
    sumServ ((process_results_scan [] [] [] [c3bigRes]).flushed.take 0)
      < DISCOVERER_BATCH_RESULTS_NUM :=
  (c3_drain_batch_bound [] [] [] [c3bigRes]).2 0 (by decide)

/-- The kept/cc purge at the end of the scan does not touch the flushed list. -/
theorem scan_flushed (del errD : List Nat) (cc : List CheckCount) (results : List DResult) :
    (process_results_scan del errD cc results).flushed
      = (results.foldl (process_results_step del) (prInit cc)).flushed := rfl

/-- With an empty deleted-rule list and no outstanding counts, every
zero-service result is flushed: the accumulated service count never
moves, so the batch check never fires. -/
theorem flush_all_empty_services (rs : List DResult) (st : PRState)
    (hall : ∀ r ∈ rs, r.services = []) (hcnt : st.cnt = 0) (hcc : st.cc = []) :
    (rs.foldl (process_results_step []) st).flushed.length
      = st.flushed.length + rs.length := by
  induction rs generalizing st with
  | nil => simp
  | cons r rest ih =>
      have hr : r.services = [] := hall r (List.mem_cons_self r rest)
      have hstep : process_results_step [] st r =
          { st with
            total := st.total + r.services.length
            cnt := st.cnt + r.services.length
            cc := st.cc
            flushed := st.flushed ++ [r] } := by
        unfold process_results_step
        have hdel : ¬ (([] : List Nat).elem r.druleid = true) := by simp
        have hcond : ¬ (DISCOVERER_BATCH_RESULTS_NUM ≤ st.cnt ∨
            (ccFind st.cc r.druleid r.ip).getD 0 ≠ 0) := by
          rw [hcnt, hcc]
          simp [ccFind, DISCOVERER_BATCH_RESULTS_NUM]
        rw [if_neg hdel, if_neg hcond, hcc]
        simp [ccFind]
      have hall' : ∀ x ∈ rest, x.services = [] :=
        fun x hx => hall x (List.mem_cons_of_mem r hx)
      have hcnt' : (process_results_step [] st r).cnt = 0 := by
        rw [hstep]
        show st.cnt + r.services.length = 0
        rw [hcnt, hr]
        rfl
      have hcc' : (process_results_step [] st r).cc = [] := by
        rw [hstep]
        exact hcc
      have hih := ih (process_results_step [] st r) hall' hcnt' hcc'
      simp only [List.foldl_cons]
      rw [hih, hstep]
      show (st.flushed ++ [r]).length + rest.length
        = st.flushed.length + (r :: rest).length
      simp only [List.length_append, List.length_cons, List.length_nil]
      omega

/-- Counterexample to C3 as stated: (a) a cycle with 1001 completed
partials of zero services flushes all 1001 of them — more than
`DISCOVERER_BATCH_RESULTS_NUM` partials; (b) a cycle flushing one partial
with exactly 1000 services returns the nonzero skip-sleep flag although
nothing completed remains in the cache. -/
theorem c3_counterexample :
    DISCOVERER_BATCH_RESULTS_NUM
        < (process_results_scan [] [] [] ((List.range 1001).map c3emptyRes)).flushed.length ∧
    (process_results_more (process_results_scan [] [] [] [c3bigRes]) = true ∧
      (process_results_scan [] [] [] [c3bigRes]).kept.length = 0) := by
  have hstepb : process_results_step [] (prInit []) c3bigRes =
      { kept := (prInit []).kept, flushed := (prInit []).flushed ++ [c3bigRes],
        incomplete := (prInit []).incomplete, cc := (prInit []).cc,
        total := (prInit []).total + c3bigRes.services.length,
        cnt := (prInit []).cnt + c3bigRes.services.length } := by
    unfold process_results_step
    have hdel : ¬ (([] : List Nat).elem c3bigRes.druleid = true) := by simp
    have hcond : ¬ (DISCOVERER_BATCH_RESULTS_NUM ≤ (prInit []).cnt ∨
        (ccFind (prInit []).cc c3bigRes.druleid c3bigRes.ip).getD 0 ≠ 0) := by
      simp [prInit, ccFind, DISCOVERER_BATCH_RESULTS_NUM]
    rw [if_neg hdel, if_neg hcond]
    rfl
  have hscanb : process_results_scan [] [] [] [c3bigRes] =
      { kept := [], flushed := (prInit []).flushed ++ [c3bigRes],
        incomplete := (prInit []).incomplete, cc := [],
        total := (prInit []).total + c3bigRes.services.length,
        cnt := (prInit []).cnt + c3bigRes.services.length } := by
    unfold process_results_scan
    simp only [List.foldl_cons, List.foldl_nil]
    rw [hstepb]
    rfl
  have hlen : c3bigRes.services.length = 1000 := by
    show (List.replicate 1000 (⟨1, 80, DStatus.up, ""⟩ : DService)).length = 1000
    exact List.length_replicate 1000 _
  refine ⟨?_, ?_, ?_⟩
  · have ha := flush_all_empty_services ((List.range 1001).map c3emptyRes) (prInit [])
      (by
        intro r hr
        obtain ⟨i, _, rfl⟩ := List.mem_map.mp hr
        rfl)
      rfl rfl
    rw [scan_flushed [] [] [] ((List.range 1001).map c3emptyRes), ha,
      List.length_map, List.length_range]
    decide
  · unfold process_results_more
    rw [hscanb]
    show decide (DISCOVERER_BATCH_RESULTS_NUM
      ≤ (prInit []).cnt + c3bigRes.services.length) = true
    rw [hlen]
    decide
  · rw [hscanb]
    rfl

/-- No pending rule error for the rule: the error take is a no-op. -/
theorem drule_error_take_no_match (errs : List (Nat × String)) (druleid : Nat)
    (h : ∀ e ∈ errs, e.1 ≠ druleid) :
    drule_error_take errs druleid = (none, errs) := by
  induction errs with
  | nil => rfl
  | cons e rest ih =>
      unfold drule_error_take
      rw [if_neg (h e (List.mem_cons_self e rest))]
      rw [ih (fun x hx => h x (List.mem_cons_of_mem e hx))]

/-- Claim C10: whenever a job is removed with its task list exhausted and
its last worker gone (both removal sites of the worker loop), the empty-IP
sentinel is registered for its rule in the result cache; the drainer turns
that sentinel into a rule-level update that consumes a pending rule error
when one exists and otherwise updates the rule with no error. -/
theorem c10_sentinel_rule_update (results : List DResult) (wm druleid : Nat)
    (st : JobStatus) (errs : List (Nat × String)) (msg : String)
    (hfresh : resFind results druleid "" = none)
    (hnoerr : ∀ e ∈ errs, e.1 ≠ druleid) :
    worker_no_task_step results ⟨0, wm, st⟩ druleid
      = (emptyResult druleid 0 "" :: results, none) ∧
    worker_post_probe_step results ⟨1, wm, JobStatus.removing⟩ druleid
      = (emptyResult druleid 0 "" :: results, WorkerOutcome.removed) ∧
    drain_result_action ((druleid, msg) :: errs) (emptyResult druleid 0 "")
      = (DrainAction.updateRule druleid (some msg), errs) ∧
    drain_result_action errs (emptyResult druleid 0 "")
      = (DrainAction.updateRule druleid none, errs) := by
  have hreg := (resFind_host_reg_fresh results druleid 0 "" hfresh).1
  refine ⟨?_, ?_, ?_, ?_⟩
  · unfold worker_no_task_step
    rw [if_pos rfl, hreg]
  · unfold worker_post_probe_step
    simp [hreg]
  · simp [drain_result_action, emptyResult, drule_error_take]
  · simp [drain_result_action, emptyResult,
      drule_error_take_no_match errs druleid hnoerr]

/-- Witness for C10 at a concrete rule with no pending error. -/
theorem c10_sentinel_rule_update_witness :
    worker_no_task_step [] ⟨0, 2, JobStatus.queued⟩ 4
      = (emptyResult 4 0 "" :: [], none) ∧
    drain_result_action [] (emptyResult 4 0 "")
      = (DrainAction.updateRule 4 none, []) :=
  have h := c10_sentinel_rule_update [] 2 4 JobStatus.queued [] "boom" rfl
    (fun e he => absurd he (List.not_mem_nil e))
  ⟨h.1, h.2.2.2⟩

end Discoverer
